import Mathlib

/-!
Shallow embedding of the news-analysis worker of the lazy-investor repository
(server/app/workers/news_analyzer.py, server/app/services/analysis/article_analyzer.py
and server/app/db/models.py), with theorems checking the specification claims
about rate limiting, caching, ingestion, signal detection and weekly
aggregation.

Time is modelled by rational numbers (seconds); a blocking sleep advances the
simulated clock.  External collaborators (content scrape, AI classifier, date
parsing, market context) are oracles passed in as functions.  The relational
store is modelled as the list of committed rows, in insertion order.
-/

/-- Embeds the `RateLimiter` class of `workers/news_analyzer.py`: `requests`
is the deque of recorded admission timestamps, oldest first. -/
structure RateLimiter where
  maxRequests : Nat
  timeWindow : ℚ
  requests : List ℚ
deriving DecidableEq

/-- Embeds the eviction loop
`while self.requests and self.requests[0] < now - self.time_window: popleft()`:
drop timestamps from the front while they are older than `now - timeWindow`. -/
def evictOld (tw now : ℚ) : List ℚ → List ℚ
  | [] => []
  | t :: rest => if t < now - tw then evictOld tw now rest else t :: rest

/-- Embeds `RateLimiter.wait_if_needed`, called at simulated time `now`.
Returns the updated limiter together with the time at which the call returns,
which is also the timestamp it records (`time.sleep(w)` is modelled as
advancing the clock by `w`).  When the deque is empty after eviction the
count test can only pass for `max_requests = 0`, where the Python code would
crash on `self.requests[0]`; that degenerate configuration is excluded by the
hypotheses of the theorems below. -/
def waitIfNeeded (rl : RateLimiter) (now : ℚ) : RateLimiter × ℚ :=
  match evictOld rl.timeWindow now rl.requests with
  | [] => ({ rl with requests := [now] }, now)
  | oldest :: rest =>
    if rl.maxRequests ≤ (oldest :: rest).length then
      let waitTime := rl.timeWindow - (now - oldest) + 1
      if 0 < waitTime then
        let now2 := now + waitTime
        ({ rl with requests := evictOld rl.timeWindow now2 (oldest :: rest) ++ [now2] }, now2)
      else
        ({ rl with requests := (oldest :: rest) ++ [now] }, now)
    else
      ({ rl with requests := (oldest :: rest) ++ [now] }, now)

/-- Runs a sequence of sequential `wait_if_needed` calls: starting from time
`t`, each entry `d` of the delay list issues the next call `d` seconds after
the previous call returned.  Returns the final limiter state and the list of
recorded admission timestamps. -/
def simulateCalls : RateLimiter → ℚ → List ℚ → RateLimiter × List ℚ
  | rl, _, [] => (rl, [])
  | rl, t, d :: ds =>
    let p := waitIfNeeded rl (t + d)
    let q := simulateCalls p.1 p.2 ds
    (q.1, p.2 :: q.2)

/-- A timestamp `a` lies in the trailing window of length `tw` ending at `T`. -/
def inWindow (tw T a : ℚ) : Bool := decide (T - tw < a) && decide (a ≤ T)

/-- Embeds the key derivation of `ArticleAnalysisCache._get_key`; the md5 hex
digest of the joined string is modelled by the joined string itself (a fixed
deterministic key function; hash collisions are not modelled). -/
def cacheKey (symbol title : String) : String := symbol ++ ":" ++ title

/-- Embeds `ArticleAnalysisCache` of `services/analysis/article_analyzer.py`:
`entries` models the `_cache` dict as an association list from key to
(analysis value, insertion timestamp); keys are unique by construction of
`cacheSet`. -/
structure AnalysisCache (V : Type) where
  entries : List (String × V × ℚ)
  ttl : ℚ

/-- Dict lookup on the association list. -/
def cacheFind {V : Type} : List (String × V × ℚ) → String → Option (V × ℚ)
  | [], _ => none
  | e :: rest, k => if e.1 = k then some e.2 else cacheFind rest k

/-- Dict deletion (`del self._cache[key]`). -/
def cacheErase {V : Type} (entries : List (String × V × ℚ)) (k : String) :
    List (String × V × ℚ) :=
  entries.filter (fun e => decide (e.1 ≠ k))

/-- Embeds `ArticleAnalysisCache.set`: store the value with the current time
under the derived key (dict assignment replaces any previous binding). -/
def cacheSet {V : Type} (c : AnalysisCache V) (symbol title : String) (v : V)
    (now : ℚ) : AnalysisCache V :=
  { c with entries := (cacheKey symbol title, v, now) :: cacheErase c.entries (cacheKey symbol title) }

/-- Embeds `ArticleAnalysisCache.get`: return the stored value while
`now - timestamp < ttl`; otherwise delete the entry and return `none`. -/
def cacheGet {V : Type} (c : AnalysisCache V) (symbol title : String) (now : ℚ) :
    Option V × AnalysisCache V :=
  match cacheFind c.entries (cacheKey symbol title) with
  | some vt =>
    if now - vt.2 < c.ttl then (some vt.1, c)
    else (none, { c with entries := cacheErase c.entries (cacheKey symbol title) })
  | none => (none, c)

/-- Embeds `ArticleAnalysisCache.size`. -/
def cacheSize {V : Type} (c : AnalysisCache V) : Nat := c.entries.length

/-- An item of the fetched news list, as consumed by `analyze_symbol_news`:
each field is `none` when the corresponding dict key is absent.  The two
naming schemes (`title`/`news_title` and so on) mirror the heterogeneous
fetch sources. -/
structure NewsItem where
  title : Option String
  news_title : Option String
  link : Option String
  news_link : Option String
  published : Option String
  news_pub_date : Option String
deriving DecidableEq

/-- Python truthiness of an optional string: `None` and the empty string are
falsy. -/
def pyTruthyStr : Option String → Bool
  | none => false
  | some s => !(s == "")

/-- Python `a or b` on optional strings (used for `news.get("title") or
news.get("news_title")` and the link and date analogues). -/
def pyOrStr (a b : Option String) : Option String :=
  if pyTruthyStr a then a else b

/-- The effective title of a news item (`news.get("title") or news.get("news_title")`). -/
def effTitle (n : NewsItem) : Option String := pyOrStr n.title n.news_title

/-- The effective link of a news item (`news.get("link") or news.get("news_link")`). -/
def effLink (n : NewsItem) : Option String := pyOrStr n.link n.news_link

/-- The effective published string of a news item
(`news.get("published") or news.get("news_pub_date")`). -/
def effPub (n : NewsItem) : Option String := pyOrStr n.published n.news_pub_date

/-- The dict returned by `analyze_single_article`: on the success path it is
the classifier payload, on the failure path it is the empty dict `{}`, whose
`.get` calls all yield `None`.  Every field is therefore optional. -/
structure AnalysisDict where
  is_relevant : Option Bool
  sentiment : Option String
  tldr : Option String
  rationale : Option String
  key_drivers : Option (List String)
  risks_or_caveats : Option (List String)
  score : Option Int
  confidence : Option ℚ
deriving DecidableEq

/-- The empty dict returned by `analyze_single_article` when the AI call
raises or its payload cannot be parsed: every `.get` yields `None`. -/
def emptyAnalysis : AnalysisDict :=
  ⟨none, none, none, none, none, none, none, none⟩

/-- Embeds `analyze_single_article` on the background path
(`use_cache=False`): the external AI call is an oracle whose value `none`
models an exception or an unparsable payload; in that case the Python
function catches the exception and returns `{}` instead of raising. -/
def analyzeSingleArticle (oracle : Option AnalysisDict) : AnalysisDict :=
  match oracle with
  | some d => d
  | none => emptyAnalysis

/-- A committed `AnalyzedArticle` row (db/models.py); the analysis columns
are nullable. -/
structure ArticleRow where
  symbol : String
  title : Option String
  link : Option String
  published_at : ℚ
  is_relevant : Option Bool
  sentiment : Option String
  tldr : Option String
  rationale : Option String
  key_drivers : Option (List String)
  risks_or_caveats : Option (List String)
  score : Option Int
  confidence : Option ℚ
deriving DecidableEq

/-- The external collaborators of the worker, as deterministic oracles:
`scrape link` is the raw article text (`none` models a raised scrape error),
`classify symbol context title text` is the AI classifier response (`none`
models a raised or malformed response), `parseDate s` is
`datetime.fromisoformat` (`none` models a parse error), `context symbol` is
`stocks_service.get_market_context`, and `now` is the current clock reading
used for date fallbacks. -/
structure Env where
  scrape : String → Option String
  classify : String → String → String → String → Option AnalysisDict
  parseDate : String → Option ℚ
  context : String → String
  now : ℚ

/-- The published timestamp stored for a news item: `fromisoformat` on the
effective published string, with `datetime.now()` as the fallback of the
bare `except` (a missing string raises `AttributeError` into the same
handler). -/
def pubDateOf (env : Env) (n : NewsItem) : ℚ :=
  match effPub n with
  | none => env.now
  | some s => (env.parseDate s).getD env.now

/-- The row built and committed by `analyze_and_store_article` for a news
item that reached the store step with scraped text `text`. -/
def mkArticleRow (env : Env) (symbol context : String) (n : NewsItem) : ArticleRow :=
  let t := (effTitle n).getD ""
  let l := (effLink n).getD ""
  let text := (env.scrape l).getD ""
  let analysis := analyzeSingleArticle (env.classify symbol context t text)
  { symbol := symbol
    title := effTitle n
    link := effLink n
    published_at := pubDateOf env n
    is_relevant := analysis.is_relevant
    sentiment := analysis.sentiment
    tldr := analysis.tldr
    rationale := analysis.rationale
    key_drivers := analysis.key_drivers
    risks_or_caveats := analysis.risks_or_caveats
    score := analysis.score
    confidence := analysis.confidence }

/-- The `uix_article_dedup` unique constraint of `analyzed_articles`: a
pending insert collides when a committed row already has the same
`(symbol, title, published_at)`. -/
def insertConflict (db : List ArticleRow) (r : ArticleRow) : Bool :=
  db.any (fun q => decide (q.symbol = r.symbol ∧ q.title = r.title ∧ q.published_at = r.published_at))

/-- Embeds `analyze_and_store_article`.  The result is the article table
after the call together with `true` when control returned normally and
`false` when an exception escaped to the caller.  The cases, in source
order: a falsy link returns at once; printing `title[:60]` raises on a
`None` title; a scrape error is caught and skips the article; otherwise the
article is classified (never raising, see `analyzeSingleArticle`) and the
row is committed, where an insert collision on the unique constraint raises
out of the function and the pending row is not stored. -/
def analyzeAndStoreArticle (env : Env) (db : List ArticleRow)
    (symbol context : String) (n : NewsItem) : List ArticleRow × Bool :=
  if !(pyTruthyStr (effLink n)) then (db, true)
  else
    match effTitle n with
    | none => (db, false)
    | some _ =>
      match env.scrape ((effLink n).getD "") with
      | none => (db, true)
      | some _ =>
        let row := mkArticleRow env symbol context n
        if insertConflict db row then (db, false)
        else (db ++ [row], true)

/-- The Ingestion Gate test of `analyze_symbol_news`: a stored row matches a
news item when it has the same symbol and the same effective title
(`published_at` plays no part). -/
def gateMatches (db : List ArticleRow) (symbol : String) (n : NewsItem) : Bool :=
  db.any (fun r => decide (r.symbol = symbol ∧ r.title = effTitle n))

/-- The Ingestion Gate filter of `analyze_symbol_news`: the sublist of news
items with no matching stored row, computed against the table as it stood
before any of the batch was processed. -/
def gateFilter (db : List ArticleRow) (symbol : String) (news : List NewsItem) :
    List NewsItem :=
  news.filter (fun n => !(gateMatches db symbol n))

/-- The per-article loop of `analyze_symbol_news`: process the surviving
items in order; an exception escaping one article aborts the rest of the
pass and propagates (second component `false`). -/
def processNewArticles (env : Env) (symbol context : String) :
    List ArticleRow → List NewsItem → List ArticleRow × Bool
  | db, [] => (db, true)
  | db, n :: rest =>
    match analyzeAndStoreArticle env db symbol context n with
    | (db2, true) => processNewArticles env symbol context db2 rest
    | (db2, false) => (db2, false)

/-- Embeds the `AnalyzedArticle`-table effect of `analyze_symbol_news` for
one symbol: gate-filter the fetched list against the current table, then
process the survivors in order.  Signal detection and the weekly summary
write to other tables and are modelled separately. -/
def analyzeSymbolNews (env : Env) (db : List ArticleRow) (symbol : String)
    (news : List NewsItem) : List ArticleRow × Bool :=
  processNewArticles env symbol (env.context symbol) db (gateFilter db symbol news)

/-- Embeds the watchlist loop of `analyze_watchlist_stocks`: each entry
pairs a symbol with its fetched news list; any exception escaping one
symbol is caught and the loop advances to the next symbol with the rows
committed so far. -/
def analyzeWatchlistStocks (env : Env) :
    List ArticleRow → List (String × List NewsItem) → List ArticleRow
  | db, [] => db
  | db, (symbol, news) :: rest =>
    analyzeWatchlistStocks env (analyzeSymbolNews env db symbol news).1 rest

/-- Whether the character sequence `l` starts with the sequence `pat`. -/
def startsWithSeq : List Char → List Char → Bool
  | [], _ => true
  | _ :: _, [] => false
  | p :: ps, c :: cs => p == c && startsWithSeq ps cs

/-- Whether the sequence `pat` occurs contiguously inside `l`. -/
def hasSubSeq (pat : List Char) : List Char → Bool
  | [] => startsWithSeq pat []
  | c :: cs => startsWithSeq pat (c :: cs) || hasSubSeq pat cs

/-- Python `kw in s.lower()` on the article title, as used by the keyword
rules of `detect_signals`: lower-casing maps `Char.toLower` over the
characters (the same mapping `String.toLower` performs) and the keyword must
occur contiguously in the result. -/
def kwInLower (kw s : String) : Bool :=
  hasSubSeq kw.toList (s.toList.map Char.toLower)

/-- Python `any(keyword in title.lower() for keyword in kws)`. -/
def anyKeyword (kws : List String) (s : String) : Bool :=
  kws.any (fun k => kwInLower k s)

/-- An `AnalyzedArticle` row as scanned by `detect_signals`: the query keeps
only rows with `is_relevant = true`, which the pipeline stores with a full
classifier payload, so the fields read by the rules (`title`, `sentiment`,
`score`) are carried non-null here. -/
structure StoredArticle where
  id : Nat
  symbol : String
  title : String
  published_at : ℚ
  is_relevant : Bool
  sentiment : String
  tldr : Option String
  score : Int
deriving DecidableEq

/-- A committed or pending `Signal` row (db/models.py). -/
structure SignalRow where
  symbol : String
  signal_type : String
  priority : String
  title : String
  description : Option String
  article_id : Nat
  expires_at : ℚ
deriving DecidableEq

/-- The recency query of `detect_signals`: rows of the symbol published in
the trailing 24 hours (86400 seconds) that are relevant. -/
def recentRelevant (now : ℚ) (symbol : String) (rows : List StoredArticle) :
    List StoredArticle :=
  rows.filter (fun a =>
    decide (a.symbol = symbol) && decide (now - 86400 ≤ a.published_at) && a.is_relevant)

/-- Modelled from the spec: the session construction (`app/db/session.py`) is
not among the sources, so the visibility of rows added earlier in the same
run to the dedup query is taken from the spec (section 4.5 asserts at most
one signal total per article) together with the SQLAlchemy default
`autoflush=True`: a query flushes pending inserts first, so the signal list
models committed and pending rows uniformly. -/
def existsSignalFor (signals : List SignalRow) (aid : Nat) : Bool :=
  signals.any (fun s => decide (s.article_id = aid))

/-- The signal built by the dividend rule of `detect_signals`. -/
def mkDividendSignal (now : ℚ) (symbol : String) (a : StoredArticle) : SignalRow :=
  { symbol := symbol
    signal_type := "dividend_announced"
    priority := if 8 ≤ a.score then "high" else "medium"
    title := "💰 " ++ symbol ++ ": Dividend Announcement"
    description := a.tldr
    article_id := a.id
    expires_at := now + 30 * 86400 }

/-- The signal built by the earnings rule of `detect_signals`. -/
def mkEarningsSignal (now : ℚ) (symbol : String) (a : StoredArticle) : SignalRow :=
  { symbol := symbol
    signal_type := "earnings_beat"
    priority := "high"
    title := "📈 " ++ symbol ++ ": Strong Earnings Signal"
    description := a.tldr
    article_id := a.id
    expires_at := now + 7 * 86400 }

/-- The signal built by the contract rule of `detect_signals`. -/
def mkContractSignal (now : ℚ) (symbol : String) (a : StoredArticle) : SignalRow :=
  { symbol := symbol
    signal_type := "major_contract"
    priority := "medium"
    title := "📋 " ++ symbol ++ ": Major Contract/Partnership"
    description := a.tldr
    article_id := a.id
    expires_at := now + 14 * 86400 }

/-- One keyword rule of `detect_signals`: when the keyword list matches the
title, no signal exists yet for the article id and the gate condition
holds, append the built signal; otherwise leave the list unchanged. -/
def ruleStep (kwMatch gateOk : Bool) (sig : SignalRow) (aid : Nat)
    (signals : List SignalRow) : List SignalRow :=
  if kwMatch && !(existsSignalFor signals aid) && gateOk then signals ++ [sig]
  else signals

/-- The dividend rule keywords. -/
def dividendKws : List String := ["cổ tức", "dividend", "phân phối", "chia cổ"]

/-- The earnings rule keywords. -/
def earningsKws : List String := ["doanh thu", "lợi nhuận", "kết quả kinh doanh", "earnings"]

/-- The contract rule keywords. -/
def contractKws : List String := ["hợp đồng", "dự án", "contract", "partnership"]

/-- The three rule evaluations of `detect_signals` for one scanned article,
in source order. -/
def detectForArticle (now : ℚ) (symbol : String) (signals : List SignalRow)
    (a : StoredArticle) : List SignalRow :=
  let s1 := ruleStep (anyKeyword dividendKws a.title) (decide (6 ≤ a.score))
    (mkDividendSignal now symbol a) a.id signals
  let s2 := ruleStep (anyKeyword earningsKws a.title)
    (decide (a.sentiment = "Bullish") && decide (7 ≤ a.score))
    (mkEarningsSignal now symbol a) a.id s1
  ruleStep (anyKeyword contractKws a.title)
    (decide (a.sentiment = "Bullish") && decide (7 ≤ a.score))
    (mkContractSignal now symbol a) a.id s2

/-- Embeds `detect_signals` for one symbol at time `now`: scan the recent
relevant rows in order, evaluating the three rules for each. -/
def detectSignals (now : ℚ) (symbol : String) (rows : List StoredArticle)
    (signals : List SignalRow) : List SignalRow :=
  (recentRelevant now symbol rows).foldl (detectForArticle now symbol) signals

/-- A row of the weekly window as read by `update_weekly_summary`:
`sentiment` and `score` are the nullable stored columns. -/
structure WeekArticle where
  sentiment : Option String
  score : Option Int
deriving DecidableEq

/-- Python truthiness of an optional integer (`if a.score`): `None` and `0`
are falsy. -/
def pyTruthyInt : Option Int → Bool
  | none => false
  | some z => !(z == 0)

/-- The aggregate metrics of `update_weekly_summary` in source order:
`total` is the row count, `bullish` and `bearish` count by sentiment,
`neutral` is `total - bullish - bearish`, and `avg_score` is the sum of the
truthy scores divided by `total`. -/
def weeklyMetrics (articles : List WeekArticle) : Nat × Nat × Nat × Nat × ℚ :=
  let total := articles.length
  let bullish := articles.countP (fun a => decide (a.sentiment = some "Bullish"))
  let bearish := articles.countP (fun a => decide (a.sentiment = some "Bearish"))
  let neutral := total - bullish - bearish
  let avg := (((articles.filter (fun a => pyTruthyInt a.score)).map
    (fun a => ((a.score.getD 0 : Int) : ℚ))).sum) / (total : ℚ)
  (total, bullish, bearish, neutral, avg)

/-- Embeds the write decision of `update_weekly_summary`: with fewer than 3
rows in the window nothing is written; otherwise the upserted row carries
exactly the computed metrics (the qualitative fields come from the
narrative oracle and are not modelled).  The result is the metric tuple of
the written row, or `none` when the write is skipped. -/
def weeklySummaryWrite (articles : List WeekArticle) :
    Option (Nat × Nat × Nat × Nat × ℚ) :=
  if articles.length < 3 then none else some (weeklyMetrics articles)

/-- The spec-side average of claim C3 (stated, not taken from the code): the
arithmetic mean of the non-null scores of the window. -/
def specMeanNonNullScores (articles : List WeekArticle) : ℚ :=
  (((articles.filter (fun a => decide (a.score ≠ none))).map
    (fun a => ((a.score.getD 0 : Int) : ℚ))).sum) /
    ((articles.countP (fun a => decide (a.score ≠ none)) : Nat) : ℚ)

/-- An invariant packaging the state of a limiter after some sequence of
sequential calls: `recorded` is the list of all admission timestamps so far
and `t` is the time the last call returned (or the start time).  The deque
holds a sorted final segment of the recorded timestamps; every timestamp
dropped from it was already outside the trailing window; the deque never
exceeds `max`; and no trailing window of length `tw` holds more than `max`
recorded admissions. -/
structure LimiterInv (max : Nat) (tw : ℚ) (rl : RateLimiter) (recorded : List ℚ)
    (t : ℚ) : Prop where
  hmax : rl.maxRequests = max
  htw : rl.timeWindow = tw
  sortedReqs : rl.requests.Sorted (· ≤ ·)
  le_t : ∀ a ∈ recorded, a ≤ t
  split : ∃ p, recorded = p ++ rl.requests ∧ ∀ a ∈ p, a < t - tw
  lenLe : rl.requests.length ≤ max
  window : ∀ T : ℚ, recorded.countP (inWindow tw T) ≤ max

/-- At most one signal row is attached to any article id. -/
def atMostOnePerArticle (signals : List SignalRow) : Prop :=
  ∀ aid : Nat, signals.countP (fun s => decide (s.article_id = aid)) ≤ 1

/-- A fixture environment whose classifier always fails (raises or returns
an unparsable payload). -/
def failEnv : Env :=
  { scrape := fun _ => some "body text"
    classify := fun _ _ _ _ => none
    parseDate := fun _ => some 5
    context := fun _ => "ctx"
    now := 100 }

/-- A fixture classifier payload. -/
def samplePayload : AnalysisDict :=
  ⟨some true, some "Bullish", some "tóm tắt", some "lý do", some ["d"], some [], some 8, some 1⟩

/-- A fixture environment whose collaborators all succeed. -/
def okEnv : Env :=
  { scrape := fun _ => some "body text"
    classify := fun _ _ _ _ => some samplePayload
    parseDate := fun _ => some 5
    context := fun _ => "ctx"
    now := 100 }

/-- A news item with the given title and link. -/
def mkItem (t l : String) : NewsItem :=
  ⟨some t, none, some l, none, some "d", none⟩

/-- A fixture news list with two items of the same title (and the same
published string, hence the same parsed date) followed by a fresh item. -/
def dupTitleNews : List NewsItem :=
  [mkItem "T" "l1", mkItem "T" "l2", mkItem "U" "l3"]

/-- A fixture recent relevant article whose title matches the dividend rule
only, with score 8. -/
def divArticle : StoredArticle :=
  ⟨1, "HPG", "hpg chia cổ tức tiền mặt", 100, true, "Neutral", some "tóm tắt", 8⟩

/-- A fixture recent relevant article whose title matches all three keyword
rules, with a Bullish sentiment and score 9. -/
def multiRuleArticle : StoredArticle :=
  ⟨2, "HPG", "hpg chia cổ tức, ký hợp đồng, doanh thu tăng", 100, true, "Bullish", some "tóm tắt", 9⟩

/-- A fixture weekly window with one null score among three articles. -/
def mixedWeek : List WeekArticle :=
  [⟨some "Bullish", some 6⟩, ⟨some "Bearish", some 6⟩, ⟨some "Neutral", none⟩]

theorem cacheFind_cacheErase {V : Type} (l : List (String × V × ℚ)) (k : String) :
    cacheFind (cacheErase l k) k = none := by
  induction l with
  | nil => rfl
  | cons e rest ih =>
    by_cases h : e.1 = k
    · simpa [cacheErase, List.filter_cons, h] using ih
    · simpa [cacheErase, List.filter_cons, h, cacheFind] using ih

theorem cacheErase_idem {V : Type} (l : List (String × V × ℚ)) (k : String) :
    cacheErase (cacheErase l k) k = cacheErase l k := by
  induction l with
  | nil => rfl
  | cons e rest ih =>
    by_cases h : e.1 = k
    · simp only [cacheErase, List.filter_cons] at ih ⊢
      simp [h, ih]
    · simp only [cacheErase, List.filter_cons] at ih ⊢
      simp [h, ih]

/-- Claim C4: after `set(k,v)` at time `t0`, a `get(k)` at a time `t1` with
`t1 - t0 < ttl` returns `v` and leaves the cache unchanged; once the ttl has
elapsed (`ttl ≤ t1 - t0`) the same `get` returns `none`, evicts the entry,
and the entry no longer counts toward `size()` (the key is gone and the size
drops by one). -/
theorem cache_ttl_roundtrip {V : Type} (c : AnalysisCache V) (symbol title : String)
    (v : V) (t0 t1 : ℚ) :
    (t1 - t0 < c.ttl →
      cacheGet (cacheSet c symbol title v t0) symbol title t1
        = (some v, cacheSet c symbol title v t0))
    ∧ (c.ttl ≤ t1 - t0 →
      (cacheGet (cacheSet c symbol title v t0) symbol title t1).1 = none
      ∧ cacheFind ((cacheGet (cacheSet c symbol title v t0) symbol title t1).2).entries
          (cacheKey symbol title) = none
      ∧ cacheSize ((cacheGet (cacheSet c symbol title v t0) symbol title t1).2)
          = cacheSize (cacheSet c symbol title v t0) - 1) := by
  constructor
  · intro h
    simp [cacheGet, cacheSet, cacheFind, h]
  · intro h
    have hnot : ¬ (t1 - t0 < c.ttl) := not_lt.mpr h
    have hget : cacheGet (cacheSet c symbol title v t0) symbol title t1
        = (none, { entries := cacheErase c.entries (cacheKey symbol title), ttl := c.ttl }) := by
      simp [cacheGet, cacheSet, cacheFind, hnot, cacheErase_idem, cacheErase, List.filter_cons]
    rw [hget]
    refine ⟨rfl, cacheFind_cacheErase _ _, ?_⟩
    simp [cacheSize, cacheSet]

/-- Claim C4 witness: a concrete instantiation of both branches. -/
theorem cache_ttl_roundtrip_witness :
    cacheGet (cacheSet (⟨[], 3600⟩ : AnalysisCache Nat) "HPG" "tin" 7 0) "HPG" "tin" 10
      = (some 7, cacheSet (⟨[], 3600⟩ : AnalysisCache Nat) "HPG" "tin" 7 0)
    ∧ (cacheGet (cacheSet (⟨[], 3600⟩ : AnalysisCache Nat) "HPG" "tin" 7 0) "HPG" "tin" 5000).1
      = none :=
  ⟨(cache_ttl_roundtrip (⟨[], 3600⟩ : AnalysisCache Nat) "HPG" "tin" 7 0 10).1 (by norm_num),
   ((cache_ttl_roundtrip (⟨[], 3600⟩ : AnalysisCache Nat) "HPG" "tin" 7 0 5000).2 (by norm_num)).1⟩

/-- Claim C10: a news item that gate-passed but has neither a `link` nor a
`news_link` field is dropped before any content fetch, classification or
database write: for every choice of oracles the article table is unchanged
and control returns normally. -/
theorem linkless_item_no_write (env : Env) (db : List ArticleRow)
    (symbol context : String) (n : NewsItem) (h : effLink n = none) :
    analyzeAndStoreArticle env db symbol context n = (db, true) := by
  simp [analyzeAndStoreArticle, h, pyTruthyStr]

/-- Claim C10 witness. -/
theorem linkless_item_no_write_witness :
    analyzeAndStoreArticle okEnv [] "HPG" "ctx" ⟨some "T", none, none, none, none, none⟩
      = ([], true) :=
  linkless_item_no_write okEnv [] "HPG" "ctx" ⟨some "T", none, none, none, none, none⟩ (by decide)

/-- Claim C1 (the code, not the claim, is at fault): when the classifier call
fails, `analyze_single_article` catches the exception and returns the empty
dict instead of raising, and `analyze_and_store_article` then persists a row
whose analysis columns are all null — the failing article does produce a
stored row. -/
theorem classifier_failure_stores_null_row :
    analyzeAndStoreArticle failEnv [] "HPG" "ctx" (mkItem "Tin A" "la")
      = ([{ symbol := "HPG", title := some "Tin A", link := some "la",
            published_at := 5, is_relevant := none, sentiment := none,
            tldr := none, rationale := none, key_drivers := none,
            risks_or_caveats := none, score := none, confidence := none }], true) := by
  decide

/-- Claim C6: the Ingestion Gate keeps a fetched item exactly when no stored
row has the same symbol and effective title; `published_at` plays no part in
the decision (rewriting it on every stored row changes nothing); and the
symbol pass classifies precisely the kept items, the discarded ones going
through no further processing. -/
theorem ingestion_gate_dedup (db : List ArticleRow) (symbol : String)
    (news : List NewsItem) (n : NewsItem) (h : n ∈ news) :
    (n ∈ gateFilter db symbol news ↔ ¬ ∃ r ∈ db, r.symbol = symbol ∧ r.title = effTitle n)
    ∧ (∀ f : ArticleRow → ℚ,
        gateFilter (db.map (fun r => { r with published_at := f r })) symbol news
          = gateFilter db symbol news)
    ∧ ∀ env : Env, analyzeSymbolNews env db symbol news
        = processNewArticles env symbol (env.context symbol) db (gateFilter db symbol news) := by
  refine ⟨?_, ?_, fun env => rfl⟩
  · simp [gateFilter, List.mem_filter, h, gateMatches, List.any_eq_true]
  · intro f
    have hx : ∀ m : NewsItem,
        ((db.map (fun r => { r with published_at := f r })).any
          (fun r => decide (r.symbol = symbol ∧ r.title = effTitle m)))
        = (db.any (fun r => decide (r.symbol = symbol ∧ r.title = effTitle m))) := by
      intro m
      rw [List.any_map]
      rfl
    simp only [gateFilter, gateMatches]
    exact List.filter_congr (fun m _ => by rw [hx m])

/-- Claim C6 witness. -/
theorem ingestion_gate_dedup_witness :
    (mkItem "T" "l1" ∈ gateFilter [] "HPG" [mkItem "T" "l1"]
      ↔ ¬ ∃ r ∈ ([] : List ArticleRow), r.symbol = "HPG" ∧ r.title = effTitle (mkItem "T" "l1")) :=
  (ingestion_gate_dedup [] "HPG" [mkItem "T" "l1"] (mkItem "T" "l1") (by decide)).1

/-- Claim C3 counterexample: in a window of three articles where one score
is null, the stored average is the truthy-score sum divided by the total
count (16/... here 12/3 = 4), not the mean of the non-null scores (12/2 = 6),
so the claim as stated fails. -/
theorem weekly_avg_counterexample :
    weeklySummaryWrite mixedWeek = some (3, 1, 1, 1, 4)
    ∧ specMeanNonNullScores mixedWeek = 6
    ∧ (weeklyMetrics mixedWeek).2.2.2.2 ≠ specMeanNonNullScores mixedWeek := by
  have hm : weeklyMetrics mixedWeek = (3, 1, 1, 1, 4) := by
    norm_num [weeklyMetrics, mixedWeek, pyTruthyInt,
      List.filter, List.countP, List.countP.go,
      show ((6 : Int) == 0) = false from rfl,
      show (decide (("Bearish" : String) = "Bullish")) = false from rfl,
      show (decide (("Neutral" : String) = "Bullish")) = false from rfl,
      show (decide (("Bullish" : String) = "Bearish")) = false from rfl,
      show (decide (("Neutral" : String) = "Bearish")) = false from rfl]
  have hs : specMeanNonNullScores mixedWeek = 6 := by
    norm_num [specMeanNonNullScores, mixedWeek, List.filter, List.countP, List.countP.go,
      show (decide ((some (6 : Int) : Option Int) = none)) = false from rfl,
      show (decide ((none : Option Int) = none)) = true from rfl]
  refine ⟨?_, hs, ?_⟩
  · unfold weeklySummaryWrite
    rw [if_neg (by decide), hm]
  · rw [hm, hs]
    norm_num

theorem count_three_sentiments (l : List WeekArticle)
    (h : ∀ a ∈ l, a.sentiment = some "Bullish" ∨ a.sentiment = some "Bearish"
      ∨ a.sentiment = some "Neutral") :
    l.countP (fun a => decide (a.sentiment = some "Bullish"))
      + l.countP (fun a => decide (a.sentiment = some "Bearish"))
      + l.countP (fun a => decide (a.sentiment = some "Neutral")) = l.length := by
  induction l with
  | nil => simp
  | cons a l ih =>
    have ha := h a (List.mem_cons_self a l)
    have ih2 := ih (fun b hb => h b (List.mem_cons_of_mem a hb))
    rcases ha with h1 | h1 | h1 <;>
      simp [List.countP_cons, h1,
        show (decide (("Bullish" : String) = "Bearish")) = false from rfl,
        show (decide (("Bullish" : String) = "Neutral")) = false from rfl,
        show (decide (("Bearish" : String) = "Bullish")) = false from rfl,
        show (decide (("Bearish" : String) = "Neutral")) = false from rfl,
        show (decide (("Neutral" : String) = "Bullish")) = false from rfl,
        show (decide (("Neutral" : String) = "Bearish")) = false from rfl] <;>
      omega

/-- Claim C3 (amended): whenever the weekly write happens (at least three
rows in the window), the stored totals are: `total` the row count,
`bullish_count` and `bearish_count` the counts by sentiment,
`neutral_count` the remainder `total - bullish - bearish` — which equals the
count of Neutral rows when every sentiment is one of the three classifier
values — and `avg_score` the sum of the truthy (non-null, non-zero) scores
divided by `total`, which equals the arithmetic mean of the non-null scores
exactly in the case that every row has a non-null, non-zero score. -/
theorem weekly_metrics_amended (articles : List WeekArticle) (h3 : 3 ≤ articles.length) :
    weeklySummaryWrite articles = some (weeklyMetrics articles)
    ∧ (weeklyMetrics articles).1 = articles.length
    ∧ (weeklyMetrics articles).2.1
      = articles.countP (fun a => decide (a.sentiment = some "Bullish"))
    ∧ (weeklyMetrics articles).2.2.1
      = articles.countP (fun a => decide (a.sentiment = some "Bearish"))
    ∧ ((∀ a ∈ articles, a.sentiment = some "Bullish" ∨ a.sentiment = some "Bearish"
        ∨ a.sentiment = some "Neutral") →
        (weeklyMetrics articles).2.2.2.1
          = articles.countP (fun a => decide (a.sentiment = some "Neutral")))
    ∧ ((∀ a ∈ articles, ∃ z : Int, a.score = some z ∧ z ≠ 0) →
        (weeklyMetrics articles).2.2.2.2 = specMeanNonNullScores articles) := by
  refine ⟨?_, rfl, rfl, rfl, ?_, ?_⟩
  · simp [weeklySummaryWrite, Nat.not_lt.mpr h3]
  · intro h
    have hc := count_three_sentiments articles h
    simp only [weeklyMetrics]
    omega
  · intro h
    have h1 : articles.filter (fun a => pyTruthyInt a.score) = articles := by
      rw [List.filter_eq_self]
      intro a ha
      obtain ⟨z, hz, hz0⟩ := h a ha
      simp [pyTruthyInt, hz, hz0]
    have h2 : articles.filter (fun a => decide (a.score ≠ none)) = articles := by
      rw [List.filter_eq_self]
      intro a ha
      obtain ⟨z, hz, _⟩ := h a ha
      simp [hz]
    have h4 : articles.countP (fun a => decide (a.score ≠ none)) = articles.length := by
      rw [List.countP_eq_length]
      intro a ha
      obtain ⟨z, hz, _⟩ := h a ha
      simp [hz]
    show (((articles.filter (fun a => pyTruthyInt a.score)).map
        (fun a => ((a.score.getD 0 : Int) : ℚ))).sum) / ((articles.length : Nat) : ℚ)
      = specMeanNonNullScores articles
    unfold specMeanNonNullScores
    rw [h1, h2, h4]

/-- Claim C3 amended witness. -/
theorem weekly_metrics_amended_witness :
    weeklySummaryWrite mixedWeek = some (weeklyMetrics mixedWeek)
    ∧ (weeklyMetrics mixedWeek).1 = mixedWeek.length :=
  ⟨(weekly_metrics_amended mixedWeek (by decide)).1,
   (weekly_metrics_amended mixedWeek (by decide)).2.1⟩

theorem pass_unchanged_of_scrape_fail (env : Env) (symbol context : String) :
    ∀ (l : List NewsItem) (db : List ArticleRow),
      (∀ n ∈ l, ∀ s : String, effLink n = some s → env.scrape s = none) →
      (processNewArticles env symbol context db l).1 = db := by
  intro l
  induction l with
  | nil => intro db _; rfl
  | cons n rest ih =>
    intro db h
    have hrest : ∀ m ∈ rest, ∀ s : String, effLink m = some s → env.scrape s = none :=
      fun m hm => h m (List.mem_cons_of_mem n hm)
    cases hl : effLink n with
    | none =>
      have hstep : analyzeAndStoreArticle env db symbol context n = (db, true) := by
        simp [analyzeAndStoreArticle, hl, pyTruthyStr]
      simp only [processNewArticles, hstep]
      exact ih db hrest
    | some s =>
      by_cases hs : s = ""
      · have hstep : analyzeAndStoreArticle env db symbol context n = (db, true) := by
          simp [analyzeAndStoreArticle, hl, hs, pyTruthyStr]
        simp only [processNewArticles, hstep]
        exact ih db hrest
      · have htruthy : pyTruthyStr (effLink n) = true := by
          simp [hl, pyTruthyStr]
          exact hs
        have hscr : env.scrape s = none := h n (List.mem_cons_self n rest) s hl
        cases ht : effTitle n with
        | none =>
          have hstep : analyzeAndStoreArticle env db symbol context n = (db, false) := by
            simp [analyzeAndStoreArticle, htruthy, ht]
          simp only [processNewArticles, hstep]
        | some t =>
          have hstep : analyzeAndStoreArticle env db symbol context n = (db, true) := by
            simp [analyzeAndStoreArticle, htruthy, ht, hl, hscr]
          simp only [processNewArticles, hstep]
          exact ih db hrest

/-- Claim C9: the watchlist loop catches an exception escaping one symbol
and advances to the next (first conjunct, for every state and tail); and
when symbol A's content fetch fails on every linked article, a run over
A then B leaves exactly the rows that B's pass alone would leave: B
completes and persists its rows despite A's total scrape failure. -/
theorem run_isolation (env : Env) (db : List ArticleRow) (symA symB : String)
    (newsA newsB : List NewsItem)
    (hA : ∀ n ∈ newsA, ∀ s : String, effLink n = some s → env.scrape s = none) :
    (∀ (d : List ArticleRow) (sym : String) (ns : List NewsItem)
        (rest : List (String × List NewsItem)),
        analyzeWatchlistStocks env d ((sym, ns) :: rest)
          = analyzeWatchlistStocks env (analyzeSymbolNews env d sym ns).1 rest)
    ∧ analyzeWatchlistStocks env db [(symA, newsA), (symB, newsB)]
        = (analyzeSymbolNews env db symB newsB).1 := by
  refine ⟨fun d sym ns rest => rfl, ?_⟩
  have h1 : (analyzeSymbolNews env db symA newsA).1 = db :=
    pass_unchanged_of_scrape_fail env symA (env.context symA)
      (gateFilter db symA newsA) db
      (fun n hn => hA n (List.mem_of_mem_filter hn))
  simp [analyzeWatchlistStocks, h1]

/-- Claim C9 witness: symbol A has one linkless item (so its content fetch
never succeeds), symbol B has a normal item; the run equals B running alone. -/
theorem run_isolation_witness :
    analyzeWatchlistStocks okEnv []
        [("AAA", [⟨some "T", none, none, none, none, none⟩]), ("BBB", [mkItem "U" "lu"])]
      = (analyzeSymbolNews okEnv [] "BBB" [mkItem "U" "lu"]).1 :=
  (run_isolation okEnv [] "AAA" "BBB" [⟨some "T", none, none, none, none, none⟩]
    [mkItem "U" "lu"]
    (by
      intro n hn s hl
      rcases List.mem_singleton.mp hn with rfl
      simp [effLink, pyOrStr, pyTruthyStr] at hl)).2

theorem countP_eq_zero_of_no_signal (s : List SignalRow) (aid : Nat)
    (hex : existsSignalFor s aid = false) :
    s.countP (fun x => decide (x.article_id = aid)) = 0 := by
  rw [List.countP_eq_zero]
  intro x hx
  intro hcontra
  have : existsSignalFor s aid = true := by
    unfold existsSignalFor
    rw [List.any_eq_true]
    exact ⟨x, hx, hcontra⟩
  rw [this] at hex
  cases hex

theorem countP_ruleStep_le (km gk : Bool) (sig : SignalRow) (aid : Nat)
    (s : List SignalRow) (hsig : sig.article_id = aid) (aid2 : Nat)
    (h : s.countP (fun x => decide (x.article_id = aid2)) ≤ 1) :
    (ruleStep km gk sig aid s).countP (fun x => decide (x.article_id = aid2)) ≤ 1 := by
  unfold ruleStep
  by_cases hc : (km && !(existsSignalFor s aid) && gk) = true
  · rw [if_pos hc, List.countP_append]
    have hex : existsSignalFor s aid = false := by
      have hc1 := (Bool.and_eq_true _ _).mp hc
      have hc2 := (Bool.and_eq_true _ _).mp hc1.1
      have hnot : (!(existsSignalFor s aid)) = true := hc2.2
      cases hval : existsSignalFor s aid with
      | false => rfl
      | true => rw [hval] at hnot; cases hnot
    by_cases ha : sig.article_id = aid2
    · have h0 : s.countP (fun x => decide (x.article_id = aid2)) = 0 := by
        rw [← ha] at *
        rw [hsig] at *
        exact countP_eq_zero_of_no_signal s aid hex
      simp [h0, List.countP_cons, ha]
    · simp [List.countP_cons, ha]
      simpa using h
  · rw [if_neg hc]
    exact h

theorem detectForArticle_atMostOne (now : ℚ) (sym : String) (s : List SignalRow)
    (a : StoredArticle) (h : atMostOnePerArticle s) :
    atMostOnePerArticle (detectForArticle now sym s a) := by
  intro aid2
  unfold detectForArticle
  apply countP_ruleStep_le _ _ _ _ _ rfl
  apply countP_ruleStep_le _ _ _ _ _ rfl
  apply countP_ruleStep_le _ _ _ _ _ rfl
  exact h aid2

theorem foldl_detect_atMostOne (now : ℚ) (sym : String) :
    ∀ (l : List StoredArticle) (s : List SignalRow), atMostOnePerArticle s →
      atMostOnePerArticle (l.foldl (detectForArticle now sym) s)
  | [], _, h => h
  | a :: l, s, h =>
    foldl_detect_atMostOne now sym l (detectForArticle now sym s a)
      (detectForArticle_atMostOne now sym s a h)

theorem detectSignals_atMostOne (now : ℚ) (sym : String) (rows : List StoredArticle)
    (s : List SignalRow) (h : atMostOnePerArticle s) :
    atMostOnePerArticle (detectSignals now sym rows s) :=
  foldl_detect_atMostOne now sym (recentRelevant now sym rows) s h

/-- Claim C8: across any sequence of detector runs, at most one signal is
ever attached to a given article id, because the dedup check before each
rule is keyed by `article_id` alone; this holds even for articles whose
title matches two or three rules. -/
theorem signal_dedup_at_most_one (runs : List (ℚ × String × List StoredArticle))
    (signals0 : List SignalRow) (h : atMostOnePerArticle signals0) :
    atMostOnePerArticle
      (runs.foldl (fun s r => detectSignals r.1 r.2.1 r.2.2 s) signals0) := by
  induction runs generalizing signals0 with
  | nil => exact h
  | cons r rest ih =>
    exact ih (detectSignals r.1 r.2.1 r.2.2 signals0)
      (detectSignals_atMostOne r.1 r.2.1 r.2.2 signals0 h)

/-- Claim C8 witness: one run over an article whose title matches all three
rules still yields at most one signal for its article id. -/
theorem signal_dedup_at_most_one_witness :
    ((([(100, "HPG", [multiRuleArticle])] : List (ℚ × String × List StoredArticle)).foldl
      (fun s r => detectSignals r.1 r.2.1 r.2.2 s) []).countP
        (fun s => decide (s.article_id = 2))) ≤ 1 :=
  signal_dedup_at_most_one [(100, "HPG", [multiRuleArticle])] []
    (fun _ => by simp) 2

theorem ruleStep_blocked (km gk : Bool) (sig : SignalRow) (aid : Nat)
    (s : List SignalRow) (h : existsSignalFor s aid = true) :
    ruleStep km gk sig aid s = s := by
  unfold ruleStep
  rw [h]
  simp

theorem ruleStep_gate_false (km : Bool) (sig : SignalRow) (aid : Nat)
    (s : List SignalRow) : ruleStep km false sig aid s = s := by
  unfold ruleStep
  simp

theorem ruleStep_filter_other (km gk : Bool) (sig : SignalRow) (aid2 : Nat)
    (s : List SignalRow) (aid : Nat) (hsig : ¬ (sig.article_id = aid)) :
    (ruleStep km gk sig aid2 s).filter (fun x => decide (x.article_id = aid))
      = s.filter (fun x => decide (x.article_id = aid)) := by
  unfold ruleStep
  by_cases hc : (km && !(existsSignalFor s aid2) && gk) = true
  · rw [if_pos hc, List.filter_append]
    simp [hsig]
  · rw [if_neg hc]

theorem detectForArticle_filter_other (now : ℚ) (sym : String) (s : List SignalRow)
    (b : StoredArticle) (aid : Nat) (h : ¬ (b.id = aid)) :
    (detectForArticle now sym s b).filter (fun x => decide (x.article_id = aid))
      = s.filter (fun x => decide (x.article_id = aid)) := by
  simp only [detectForArticle]
  rw [ruleStep_filter_other _ _ _ _ _ _ h, ruleStep_filter_other _ _ _ _ _ _ h,
    ruleStep_filter_other _ _ _ _ _ _ h]

theorem detectForArticle_blocked (now : ℚ) (sym : String) (s : List SignalRow)
    (b : StoredArticle) (h : existsSignalFor s b.id = true) :
    detectForArticle now sym s b = s := by
  simp only [detectForArticle]
  rw [ruleStep_blocked _ _ _ _ _ h, ruleStep_blocked _ _ _ _ _ h,
    ruleStep_blocked _ _ _ _ _ h]

theorem existsSignal_false_iff_filter_nil (s : List SignalRow) (aid : Nat) :
    existsSignalFor s aid = false
      ↔ s.filter (fun x => decide (x.article_id = aid)) = [] := by
  unfold existsSignalFor
  constructor
  · intro h
    rw [List.filter_eq_nil_iff]
    intro x hx
    intro hx2
    have : s.any (fun q => decide (q.article_id = aid)) = true :=
      List.any_eq_true.mpr ⟨x, hx, hx2⟩
    rw [this] at h
    cases h
  · intro h
    rw [List.filter_eq_nil_iff] at h
    cases hval : s.any (fun q => decide (q.article_id = aid)) with
    | false => rfl
    | true =>
      obtain ⟨x, hx, hx2⟩ := List.any_eq_true.mp hval
      exact absurd hx2 (h x hx)

theorem detectForArticle_fires_div (now : ℚ) (sym : String) (s : List SignalRow)
    (a : StoredArticle) (hex : existsSignalFor s a.id = false)
    (hkw : anyKeyword dividendKws a.title = true) (hscore : 6 ≤ a.score) :
    detectForArticle now sym s a = s ++ [mkDividendSignal now sym a] := by
  have hs1 : ruleStep (anyKeyword dividendKws a.title) (decide (6 ≤ a.score))
      (mkDividendSignal now sym a) a.id s = s ++ [mkDividendSignal now sym a] := by
    unfold ruleStep
    rw [if_pos]
    rw [hkw, hex]
    simp [hscore]
  have hex1 : existsSignalFor (s ++ [mkDividendSignal now sym a]) a.id = true := by
    unfold existsSignalFor
    rw [List.any_append]
    simp [mkDividendSignal]
  simp only [detectForArticle]
  rw [hs1, ruleStep_blocked _ _ _ _ _ hex1, ruleStep_blocked _ _ _ _ _ hex1]

theorem detectForArticle_low_score (now : ℚ) (sym : String) (s : List SignalRow)
    (a : StoredArticle) (h5 : a.score = 5) :
    detectForArticle now sym s a = s := by
  simp only [detectForArticle, h5]
  simp [ruleStep, show (decide ((6 : Int) ≤ 5)) = false from rfl,
    show (decide ((7 : Int) ≤ 5)) = false from rfl]

theorem fold_detect_filter_div (now : ℚ) (sym : String) (a : StoredArticle)
    (hkw : anyKeyword dividendKws a.title = true) (hscore : 6 ≤ a.score) :
    ∀ (l : List StoredArticle) (s : List SignalRow),
      (∀ b ∈ l, b.id = a.id → b = a) →
      ((s.filter (fun x => decide (x.article_id = a.id)) = [] → a ∈ l →
          (l.foldl (detectForArticle now sym) s).filter (fun x => decide (x.article_id = a.id))
            = [mkDividendSignal now sym a])
        ∧ (s.filter (fun x => decide (x.article_id = a.id)) = [mkDividendSignal now sym a] →
          (l.foldl (detectForArticle now sym) s).filter (fun x => decide (x.article_id = a.id))
            = [mkDividendSignal now sym a])) := by
  intro l
  induction l with
  | nil =>
    intro s _
    exact ⟨fun _ hmem => absurd hmem (List.not_mem_nil a), fun h => h⟩
  | cons b l ih =>
    intro s hids
    have hidl : ∀ c ∈ l, c.id = a.id → c = a :=
      fun c hc => hids c (List.mem_cons_of_mem b hc)
    constructor
    · intro hnil hmem
      by_cases hb : b.id = a.id
      · have hba : b = a := hids b (List.mem_cons_self b l) hb
        subst hba
        have hex : existsSignalFor s b.id = false :=
          (existsSignal_false_iff_filter_nil s b.id).mpr hnil
        have hfire := detectForArticle_fires_div now sym s b hex hkw hscore
        simp only [List.foldl_cons, hfire]
        apply (ih (s ++ [mkDividendSignal now sym b]) hidl).2
        rw [List.filter_append, hnil]
        simp [mkDividendSignal]
      · have hstep := detectForArticle_filter_other now sym s b a.id hb
        have hmem2 : a ∈ l := by
          rcases List.mem_cons.mp hmem with h1 | h1
          · exact absurd (by rw [h1]) hb
          · exact h1
        simp only [List.foldl_cons]
        apply (ih (detectForArticle now sym s b) hidl).1
        · rw [hstep]; exact hnil
        · exact hmem2
    · intro hone
      by_cases hb : b.id = a.id
      · have hex : existsSignalFor s b.id = true := by
          cases hval : existsSignalFor s b.id with
          | true => rfl
          | false =>
            have := (existsSignal_false_iff_filter_nil s b.id).mp hval
            rw [hb] at this
            rw [this] at hone
            cases hone
        have hblock := detectForArticle_blocked now sym s b hex
        simp only [List.foldl_cons, hblock]
        exact (ih s hidl).2 hone
      · have hstep := detectForArticle_filter_other now sym s b a.id hb
        simp only [List.foldl_cons]
        apply (ih (detectForArticle now sym s b) hidl).2
        rw [hstep]
        exact hone

theorem fold_detect_filter_low (now : ℚ) (sym : String) (a : StoredArticle)
    (h5 : a.score = 5) :
    ∀ (l : List StoredArticle) (s : List SignalRow),
      (∀ b ∈ l, b.id = a.id → b = a) →
      s.filter (fun x => decide (x.article_id = a.id)) = [] →
      (l.foldl (detectForArticle now sym) s).filter (fun x => decide (x.article_id = a.id))
        = [] := by
  intro l
  induction l with
  | nil => intro s _ h; exact h
  | cons b l ih =>
    intro s hids hnil
    have hidl : ∀ c ∈ l, c.id = a.id → c = a :=
      fun c hc => hids c (List.mem_cons_of_mem b hc)
    simp only [List.foldl_cons]
    by_cases hb : b.id = a.id
    · have hba : b = a := hids b (List.mem_cons_self b l) hb
      subst hba
      rw [detectForArticle_low_score now sym s b h5]
      exact ih s hidl hnil
    · apply ih (detectForArticle now sym s b) hidl
      rw [detectForArticle_filter_other now sym s b a.id hb]
      exact hnil

/-- Claim C7: for a relevant article of the symbol inside the 24-hour
window, whose title matches the dividend keywords, whose row id carries no
pre-existing signal and is not shared with a different article: with score 8
the detector attaches exactly one signal to the article — of type
`dividend_announced`, priority `high`, expiring 30 days after detection —
and with score 5 it attaches none. -/
theorem dividend_signal_threshold (now : ℚ) (sym : String)
    (signals0 : List SignalRow) (rows : List StoredArticle) (a : StoredArticle)
    (hmem : a ∈ rows) (hsym : a.symbol = sym) (hrec : now - 86400 ≤ a.published_at)
    (hrel : a.is_relevant = true)
    (hkw : anyKeyword dividendKws a.title = true)
    (hids : ∀ b ∈ rows, b.id = a.id → b = a)
    (hno : existsSignalFor signals0 a.id = false) :
    (a.score = 8 →
      (detectSignals now sym rows signals0).filter (fun x => decide (x.article_id = a.id))
        = [mkDividendSignal now sym a]
      ∧ (mkDividendSignal now sym a).signal_type = "dividend_announced"
      ∧ (mkDividendSignal now sym a).priority = "high"
      ∧ (mkDividendSignal now sym a).expires_at = now + 30 * 86400)
    ∧ (a.score = 5 →
      (detectSignals now sym rows signals0).filter (fun x => decide (x.article_id = a.id))
        = []) := by
  have hmemr : a ∈ recentRelevant now sym rows := by
    unfold recentRelevant
    rw [List.mem_filter]
    refine ⟨hmem, ?_⟩
    simp [hsym, hrec, hrel]
  have hidsr : ∀ b ∈ recentRelevant now sym rows, b.id = a.id → b = a :=
    fun b hb => hids b (List.mem_of_mem_filter hb)
  have hnil : signals0.filter (fun x => decide (x.article_id = a.id)) = [] :=
    (existsSignal_false_iff_filter_nil signals0 a.id).mp hno
  constructor
  · intro hscore
    refine ⟨?_, rfl, ?_, rfl⟩
    · exact (fold_detect_filter_div now sym a hkw (by rw [hscore]; norm_num)
        (recentRelevant now sym rows) signals0 hidsr).1 hnil hmemr
    · simp [mkDividendSignal, hscore]
  · intro hscore
    exact fold_detect_filter_low now sym a hscore
      (recentRelevant now sym rows) signals0 hidsr hnil

/-- Claim C7 witness: the concrete dividend article with score 8 in a fresh
signal table yields exactly the high-priority 30-day dividend signal. -/
theorem dividend_signal_threshold_witness :
    (detectSignals 100 "HPG" [divArticle] []).filter
        (fun x => decide (x.article_id = divArticle.id))
      = [mkDividendSignal 100 "HPG" divArticle] :=
  ((dividend_signal_threshold 100 "HPG" [] [divArticle] divArticle
    (by decide) (by decide) (by norm_num [divArticle]) (by decide) (by decide)
    (by intro b hb hid; rcases List.mem_singleton.mp hb with rfl; rfl)
    (by decide)).1 (by decide)).1

theorem step_linkFalsy (env : Env) (db : List ArticleRow) (sym ctx : String)
    (n : NewsItem) (h : pyTruthyStr (effLink n) = false) :
    analyzeAndStoreArticle env db sym ctx n = (db, true) := by
  unfold analyzeAndStoreArticle
  rw [h]
  simp

theorem step_crash (env : Env) (db : List ArticleRow) (sym ctx : String)
    (n : NewsItem) (hL : pyTruthyStr (effLink n) = true) (ht : effTitle n = none) :
    analyzeAndStoreArticle env db sym ctx n = (db, false) := by
  unfold analyzeAndStoreArticle
  rw [hL, ht]
  simp

theorem step_scrapefail (env : Env) (db : List ArticleRow) (sym ctx : String)
    (n : NewsItem) (hL : pyTruthyStr (effLink n) = true) (t : String)
    (ht : effTitle n = some t) (hs : env.scrape ((effLink n).getD "") = none) :
    analyzeAndStoreArticle env db sym ctx n = (db, true) := by
  unfold analyzeAndStoreArticle
  rw [hL, ht, hs]
  simp

theorem step_store (env : Env) (db : List ArticleRow) (sym ctx : String)
    (n : NewsItem) (hL : pyTruthyStr (effLink n) = true) (t : String)
    (ht : effTitle n = some t) (txt : String)
    (hs : env.scrape ((effLink n).getD "") = some txt)
    (hconf : insertConflict db (mkArticleRow env sym ctx n) = false) :
    analyzeAndStoreArticle env db sym ctx n
      = (db ++ [mkArticleRow env sym ctx n], true) := by
  unfold analyzeAndStoreArticle
  rw [hL, ht, hs]
  simp [hconf]

theorem analyzeAndStoreArticle_fst (env : Env) (db : List ArticleRow)
    (sym ctx : String) (n : NewsItem) :
    (analyzeAndStoreArticle env db sym ctx n).1 = db
    ∨ (analyzeAndStoreArticle env db sym ctx n).1 = db ++ [mkArticleRow env sym ctx n] := by
  unfold analyzeAndStoreArticle
  split
  · left; rfl
  · split
    · left; rfl
    · split
      · left; rfl
      · by_cases hc : insertConflict db (mkArticleRow env sym ctx n) = true
        · left; simp [hc]
        · right; simp [hc]

theorem gateMatches_append (db d : List ArticleRow) (sym : String) (n : NewsItem) :
    gateMatches (db ++ d) sym n = (gateMatches db sym n || gateMatches d sym n) := by
  unfold gateMatches
  exact List.any_append

theorem gateMatches_false_of_titles (d : List ArticleRow) (sym : String) (n : NewsItem)
    (h : ∀ r ∈ d, ¬ (r.symbol = sym ∧ r.title = effTitle n)) :
    gateMatches d sym n = false := by
  unfold gateMatches
  cases hval : d.any (fun r => decide (r.symbol = sym ∧ r.title = effTitle n)) with
  | false => rfl
  | true =>
    obtain ⟨r, hr, hp⟩ := List.any_eq_true.mp hval
    exact absurd (of_decide_eq_true hp) (h r hr)

theorem gate_of_conflict (env : Env) (db : List ArticleRow) (sym ctx : String)
    (n : NewsItem) (h : insertConflict db (mkArticleRow env sym ctx n) = true) :
    gateMatches db sym n = true := by
  unfold insertConflict at h
  obtain ⟨q, hq, hp⟩ := List.any_eq_true.mp h
  have hq2 := of_decide_eq_true hp
  unfold gateMatches
  rw [List.any_eq_true]
  exact ⟨q, hq, decide_eq_true ⟨hq2.1, hq2.2.1⟩⟩

theorem processNewArticles_append (env : Env) (sym ctx : String) :
    ∀ (l : List NewsItem) (db : List ArticleRow),
      ∃ d : List ArticleRow, (processNewArticles env sym ctx db l).1 = db ++ d
        ∧ ∀ r ∈ d, r.symbol = sym ∧ ∃ m ∈ l, r.title = effTitle m := by
  intro l
  induction l with
  | nil => intro db; exact ⟨[], by simp [processNewArticles], by simp⟩
  | cons n rest ih =>
    intro db
    rcases hA : analyzeAndStoreArticle env db sym ctx n with ⟨db2, flag⟩
    have hfst := analyzeAndStoreArticle_fst env db sym ctx n
    rw [hA] at hfst
    simp only at hfst
    cases flag with
    | true =>
      have hp : processNewArticles env sym ctx db (n :: rest)
          = processNewArticles env sym ctx db2 rest := by
        simp only [processNewArticles, hA]
      obtain ⟨d, hd1, hd2⟩ := ih db2
      rcases hfst with h | h
      · refine ⟨d, ?_, ?_⟩
        · rw [hp, hd1, h]
        · intro r hr
          obtain ⟨hs, m, hm, hmt⟩ := hd2 r hr
          exact ⟨hs, m, List.mem_cons_of_mem n hm, hmt⟩
      · refine ⟨mkArticleRow env sym ctx n :: d, ?_, ?_⟩
        · rw [hp, hd1, h, List.append_assoc, List.singleton_append]
        · intro r hr
          rcases List.mem_cons.mp hr with rfl | hr2
          · exact ⟨rfl, n, List.mem_cons_self n rest, rfl⟩
          · obtain ⟨hs, m, hm, hmt⟩ := hd2 r hr2
            exact ⟨hs, m, List.mem_cons_of_mem n hm, hmt⟩
    | false =>
      have hp : processNewArticles env sym ctx db (n :: rest) = (db2, false) := by
        simp only [processNewArticles, hA]
      rcases hfst with h | h
      · exact ⟨[], by rw [hp, h, List.append_nil], by simp⟩
      · refine ⟨[mkArticleRow env sym ctx n], by rw [hp, h], ?_⟩
        intro r hr
        rcases List.mem_singleton.mp hr with rfl
        exact ⟨rfl, n, List.mem_cons_self n rest, rfl⟩

theorem pass_twice_noop (env : Env) (sym ctx : String) :
    ∀ (L : List NewsItem) (db : List ArticleRow),
      L.Pairwise (fun a b => effTitle a ≠ effTitle b) →
      (∀ n ∈ L, gateMatches db sym n = false) →
      (processNewArticles env sym ctx ((processNewArticles env sym ctx db L).1)
        (L.filter (fun n => !(gateMatches (processNewArticles env sym ctx db L).1 sym n)))).1
        = (processNewArticles env sym ctx db L).1 := by
  intro L
  induction L with
  | nil => intro db _ _; rfl
  | cons n rest ih =>
    intro db hpair hgate
    obtain ⟨hn_rest, hprest⟩ := List.pairwise_cons.mp hpair
    have hgn : gateMatches db sym n = false := hgate n (List.mem_cons_self n rest)
    have hgrest : ∀ m ∈ rest, gateMatches db sym m = false :=
      fun m hm => hgate m (List.mem_cons_of_mem n hm)
    by_cases hL : pyTruthyStr (effLink n) = true
    · cases ht : effTitle n with
      | none =>
        have hstep : ∀ d : List ArticleRow, analyzeAndStoreArticle env d sym ctx n = (d, false) :=
          fun d => step_crash env d sym ctx n hL ht
        have hp1 : processNewArticles env sym ctx db (n :: rest) = (db, false) := by
          simp only [processNewArticles, hstep db]
        rw [hp1]
        have hfn : (!(gateMatches db sym n)) = true := by rw [hgn]; rfl
        have hfilter : (n :: rest).filter (fun m => !(gateMatches db sym m))
            = n :: rest.filter (fun m => !(gateMatches db sym m)) :=
          List.filter_cons_of_pos hfn
        have hp2 : processNewArticles env sym ctx db
            (n :: rest.filter (fun m => !(gateMatches db sym m))) = (db, false) := by
          simp only [processNewArticles, hstep db]
        rw [show ((db, false) : List ArticleRow × Bool).1 = db from rfl, hfilter, hp2]
      | some t =>
        cases hs : env.scrape ((effLink n).getD "") with
        | none =>
          have hstep : ∀ d : List ArticleRow,
              analyzeAndStoreArticle env d sym ctx n = (d, true) :=
            fun d => step_scrapefail env d sym ctx n hL t ht hs
          have hp1 : processNewArticles env sym ctx db (n :: rest)
              = processNewArticles env sym ctx db rest := by
            simp only [processNewArticles, hstep db]
          rw [hp1]
          obtain ⟨d, hd1, hd2⟩ := processNewArticles_append env sym ctx rest db
          have hgm1 : gateMatches (processNewArticles env sym ctx db rest).1 sym n = false := by
            rw [hd1, gateMatches_append, hgn]
            simp only [Bool.false_or]
            apply gateMatches_false_of_titles
            intro r hr hcontra
            obtain ⟨-, m, hm, hmt⟩ := hd2 r hr
            exact hn_rest m hm (by rw [← hcontra.2, hmt])
          have hfilter : List.filter
              (fun m => !(gateMatches (processNewArticles env sym ctx db rest).1 sym m))
              (n :: rest)
              = n :: List.filter
                (fun m => !(gateMatches (processNewArticles env sym ctx db rest).1 sym m)) rest := by
            rw [List.filter_cons]
            simp [hgm1]
          rw [hfilter]
          have hp2 : processNewArticles env sym ctx (processNewArticles env sym ctx db rest).1
              ((n :: rest.filter
                (fun m => !(gateMatches (processNewArticles env sym ctx db rest).1 sym m))))
              = processNewArticles env sym ctx (processNewArticles env sym ctx db rest).1
                (rest.filter
                  (fun m => !(gateMatches (processNewArticles env sym ctx db rest).1 sym m))) := by
            simp only [processNewArticles, hstep (processNewArticles env sym ctx db rest).1]
          rw [hp2]
          exact ih db hprest hgrest
        | some txt =>
          have hconf : insertConflict db (mkArticleRow env sym ctx n) = false := by
            cases hval : insertConflict db (mkArticleRow env sym ctx n) with
            | false => rfl
            | true =>
              have := gate_of_conflict env db sym ctx n hval
              rw [this] at hgn
              cases hgn
          have hstep : analyzeAndStoreArticle env db sym ctx n
              = (db ++ [mkArticleRow env sym ctx n], true) :=
            step_store env db sym ctx n hL t ht txt hs hconf
          have hp1 : processNewArticles env sym ctx db (n :: rest)
              = processNewArticles env sym ctx (db ++ [mkArticleRow env sym ctx n]) rest := by
            simp only [processNewArticles, hstep]
          rw [hp1]
          obtain ⟨d, hd1, hd2⟩ :=
            processNewArticles_append env sym ctx rest (db ++ [mkArticleRow env sym ctx n])
          have hrowmem : mkArticleRow env sym ctx n
              ∈ (processNewArticles env sym ctx (db ++ [mkArticleRow env sym ctx n]) rest).1 := by
            rw [hd1]
            apply List.mem_append_left
            exact List.mem_append_right db (List.mem_singleton.mpr rfl)
          have hgm1 : gateMatches
              (processNewArticles env sym ctx (db ++ [mkArticleRow env sym ctx n]) rest).1
              sym n = true := by
            unfold gateMatches
            rw [List.any_eq_true]
            exact ⟨mkArticleRow env sym ctx n, hrowmem, decide_eq_true ⟨rfl, rfl⟩⟩
          have hfilter : List.filter
              (fun m => !(gateMatches
                (processNewArticles env sym ctx (db ++ [mkArticleRow env sym ctx n]) rest).1 sym m))
              (n :: rest)
              = List.filter
                (fun m => !(gateMatches
                  (processNewArticles env sym ctx (db ++ [mkArticleRow env sym ctx n]) rest).1 sym m))
                rest := by
            rw [List.filter_cons]
            simp [hgm1]
          rw [hfilter]
          have hgrest2 : ∀ m ∈ rest,
              gateMatches (db ++ [mkArticleRow env sym ctx n]) sym m = false := by
            intro m hm
            rw [gateMatches_append, hgrest m hm]
            simp only [Bool.false_or]
            apply gateMatches_false_of_titles
            intro r hr hcontra
            rcases List.mem_singleton.mp hr with rfl
            exact hn_rest m hm hcontra.2
          exact ih (db ++ [mkArticleRow env sym ctx n]) hprest hgrest2
    · have hLf : pyTruthyStr (effLink n) = false := by
        cases hval : pyTruthyStr (effLink n) with
        | false => rfl
        | true => exact absurd hval hL
      have hstep : ∀ d : List ArticleRow, analyzeAndStoreArticle env d sym ctx n = (d, true) :=
        fun d => step_linkFalsy env d sym ctx n hLf
      have hp1 : processNewArticles env sym ctx db (n :: rest)
          = processNewArticles env sym ctx db rest := by
        simp only [processNewArticles, hstep db]
      rw [hp1]
      obtain ⟨d, hd1, hd2⟩ := processNewArticles_append env sym ctx rest db
      have hgm1 : gateMatches (processNewArticles env sym ctx db rest).1 sym n = false := by
        rw [hd1, gateMatches_append, hgn]
        simp only [Bool.false_or]
        apply gateMatches_false_of_titles
        intro r hr hcontra
        obtain ⟨-, m, hm, hmt⟩ := hd2 r hr
        exact hn_rest m hm (by rw [← hcontra.2, hmt])
      have hfilter : List.filter
          (fun m => !(gateMatches (processNewArticles env sym ctx db rest).1 sym m))
          (n :: rest)
          = n :: List.filter
            (fun m => !(gateMatches (processNewArticles env sym ctx db rest).1 sym m)) rest := by
        rw [List.filter_cons]
        simp [hgm1]
      rw [hfilter]
      have hp2 : processNewArticles env sym ctx (processNewArticles env sym ctx db rest).1
          ((n :: rest.filter
            (fun m => !(gateMatches (processNewArticles env sym ctx db rest).1 sym m))))
          = processNewArticles env sym ctx (processNewArticles env sym ctx db rest).1
            (rest.filter
              (fun m => !(gateMatches (processNewArticles env sym ctx db rest).1 sym m))) := by
        simp only [processNewArticles, hstep (processNewArticles env sym ctx db rest).1]
      rw [hp2]
      exact ih db hprest hgrest

/-- Claim C5 counterexample: over a news list holding two items with the
same title and published date (plus a third, fresh item), the first pass
stores the first twin, then aborts on the second twin's natural-key
collision (the un-handled IntegrityError), never reaching the third item;
the second pass gate-filters both twins and stores the third item, so
running twice differs from running once. -/
theorem ingestion_twice_differs :
    (analyzeSymbolNews okEnv (analyzeSymbolNews okEnv [] "HPG" dupTitleNews).1
        "HPG" dupTitleNews).1
      ≠ (analyzeSymbolNews okEnv [] "HPG" dupTitleNews).1 := by
  decide

/-- Claim C5 (amended): provided no two items of the fetched list share the
same effective title, running the symbol ingestion pass twice over the
identical list leaves the stored AnalyzedArticle rows exactly as after
running it once — the second pass inserts nothing and mutates nothing.
(Without the proviso, a within-batch `(symbol, title, published_at)`
collision aborts the first pass midway and the second pass may insert rows
the first never reached, as the counterexample shows.) -/
theorem ingestion_idempotent_amended (env : Env) (db : List ArticleRow)
    (sym : String) (news : List NewsItem)
    (h : news.Pairwise (fun a b => effTitle a ≠ effTitle b)) :
    (analyzeSymbolNews env ((analyzeSymbolNews env db sym news).1) sym news).1
      = (analyzeSymbolNews env db sym news).1 := by
  have hmono : ∀ n, gateMatches db sym n = true →
      gateMatches (processNewArticles env sym (env.context sym) db
        (gateFilter db sym news)).1 sym n = true := by
    intro n hg
    obtain ⟨d, hd1, -⟩ :=
      processNewArticles_append env sym (env.context sym) (gateFilter db sym news) db
    rw [hd1, gateMatches_append, hg]
    rfl
  have hfeq : gateFilter (processNewArticles env sym (env.context sym) db
        (gateFilter db sym news)).1 sym news
      = (gateFilter db sym news).filter
          (fun n => !(gateMatches (processNewArticles env sym (env.context sym) db
            (gateFilter db sym news)).1 sym n)) := by
    show List.filter
        (fun n => !(gateMatches (processNewArticles env sym (env.context sym) db
          (gateFilter db sym news)).1 sym n)) news
      = List.filter
          (fun n => !(gateMatches (processNewArticles env sym (env.context sym) db
            (gateFilter db sym news)).1 sym n))
          (List.filter (fun n => !(gateMatches db sym n)) news)
    rw [List.filter_filter]
    apply List.filter_congr
    intro n _
    cases hval : gateMatches db sym n with
    | false => simp
    | true =>
      rw [hmono n hval]
      simp
  show (processNewArticles env sym (env.context sym)
      ((processNewArticles env sym (env.context sym) db (gateFilter db sym news)).1)
      (gateFilter (processNewArticles env sym (env.context sym) db
        (gateFilter db sym news)).1 sym news)).1
    = (processNewArticles env sym (env.context sym) db (gateFilter db sym news)).1
  rw [hfeq]
  apply pass_twice_noop
  · exact List.Pairwise.sublist (List.filter_sublist news) h
  · intro n hn
    have := (List.mem_filter.mp hn).2
    cases hval : gateMatches db sym n with
    | false => rfl
    | true => rw [hval] at this; cases this

/-- Claim C5 amended witness: two distinct-title items, run twice. -/
theorem ingestion_idempotent_amended_witness :
    (analyzeSymbolNews okEnv
        ((analyzeSymbolNews okEnv [] "HPG" [mkItem "T" "l1", mkItem "U" "l3"]).1)
        "HPG" [mkItem "T" "l1", mkItem "U" "l3"]).1
      = (analyzeSymbolNews okEnv [] "HPG" [mkItem "T" "l1", mkItem "U" "l3"]).1 :=
  ingestion_idempotent_amended okEnv [] "HPG" [mkItem "T" "l1", mkItem "U" "l3"] (by decide)

theorem evictOld_suffix (tw now : ℚ) :
    ∀ l : List ℚ, ∃ p, l = p ++ evictOld tw now l ∧ ∀ a ∈ p, a < now - tw := by
  intro l
  induction l with
  | nil => exact ⟨[], rfl, by simp⟩
  | cons t rest ih =>
    by_cases h : t < now - tw
    · obtain ⟨p, hp1, hp2⟩ := ih
      refine ⟨t :: p, ?_, ?_⟩
      · rw [evictOld, if_pos h, List.cons_append, ← hp1]
      · intro a ha
        rcases List.mem_cons.mp ha with rfl | ha2
        · exact h
        · exact hp2 a ha2
    · refine ⟨[], ?_, by simp⟩
      rw [evictOld, if_neg h, List.nil_append]

theorem evictOld_mem_ge (tw now : ℚ) :
    ∀ l : List ℚ, l.Sorted (· ≤ ·) → ∀ a ∈ evictOld tw now l, now - tw ≤ a := by
  intro l
  induction l with
  | nil => intro _ a ha; simp [evictOld] at ha
  | cons t rest ih =>
    intro hsorted a ha
    obtain ⟨hle, hrest⟩ := List.sorted_cons.mp hsorted
    by_cases h : t < now - tw
    · rw [evictOld, if_pos h] at ha
      exact ih hrest a ha
    · rw [evictOld, if_neg h] at ha
      rcases List.mem_cons.mp ha with rfl | ha2
      · exact not_lt.mp h
      · exact le_trans (not_lt.mp h) (hle a ha2)

theorem evictOld_sublist (tw now : ℚ) (l : List ℚ) :
    (evictOld tw now l).Sublist l := by
  obtain ⟨p, hp1, -⟩ := evictOld_suffix tw now l
  conv_rhs => rw [hp1]
  exact List.sublist_append_right p (evictOld tw now l)

theorem evictOld_length_le (tw now : ℚ) (l : List ℚ) :
    (evictOld tw now l).length ≤ l.length :=
  (evictOld_sublist tw now l).length_le

theorem inWindow_iff (tw T a : ℚ) : inWindow tw T a = true ↔ (T - tw < a ∧ a ≤ T) := by
  unfold inWindow
  simp

theorem countP_inWindow_zero (tw T : ℚ) (l : List ℚ) (h : ∀ a ∈ l, a ≤ T - tw) :
    l.countP (inWindow tw T) = 0 := by
  rw [List.countP_eq_zero]
  intro a ha hcontra
  exact absurd ((inWindow_iff tw T a).mp hcontra).1 (not_lt.mpr (h a ha))

theorem limiter_record_inv (max : Nat) (tw : ℚ) (rl2 : RateLimiter)
    (recorded E q : List ℚ) (r : ℚ)
    (hmax2 : rl2.maxRequests = max) (htw2 : rl2.timeWindow = tw)
    (hreq2 : rl2.requests = E ++ [r])
    (hqsplit : recorded = q ++ E)
    (hqold : ∀ x ∈ q, x < r - tw)
    (hEsorted : E.Sorted (· ≤ ·))
    (hEle : ∀ x ∈ E, x ≤ r)
    (hElen : E.length + 1 ≤ max)
    (hrec_le : ∀ x ∈ recorded, x ≤ r)
    (hwindow : ∀ T : ℚ, recorded.countP (inWindow tw T) ≤ max) :
    LimiterInv max tw rl2 (recorded ++ [r]) r := by
  refine ⟨hmax2, htw2, ?_, ?_, ⟨q, ?_, hqold⟩, ?_, ?_⟩
  · rw [hreq2]
    refine List.pairwise_append.mpr ⟨hEsorted, ?_, ?_⟩
    · simp
    · intro a ha b hb
      rcases List.mem_singleton.mp hb with rfl
      exact hEle a ha
  · intro a ha
    rcases List.mem_append.mp ha with h | h
    · exact hrec_le a h
    · rcases List.mem_singleton.mp h with rfl
      exact le_rfl
  · rw [hreq2, hqsplit, List.append_assoc]
  · rw [hreq2]
    simp only [List.length_append, List.length_singleton]
    exact hElen
  · intro T
    rw [List.countP_append]
    by_cases hT : inWindow tw T r = true
    · have hrT : r ≤ T := ((inWindow_iff tw T r).mp hT).2
      have hcq : q.countP (inWindow tw T) = 0 := by
        apply countP_inWindow_zero
        intro a ha
        have := hqold a ha
        linarith
      have hrec : recorded.countP (inWindow tw T) ≤ E.length := by
        rw [hqsplit, List.countP_append, hcq, Nat.zero_add]
        exact List.countP_le_length _
      have hone : ([r] : List ℚ).countP (inWindow tw T) ≤ 1 := by
        have := List.countP_le_length (l := [r]) (p := inWindow tw T)
        simpa using this
      omega
    · have hzero : ([r] : List ℚ).countP (inWindow tw T) = 0 := by
        rw [List.countP_eq_zero]
        intro a ha
        rcases List.mem_singleton.mp ha with rfl
        exact hT
      rw [hzero, Nat.add_zero]
      exact hwindow T

theorem limiter_step (max : Nat) (tw : ℚ) (rl : RateLimiter) (recorded : List ℚ)
    (t : ℚ) (hmax : 0 < max) (inv : LimiterInv max tw rl recorded t)
    (now : ℚ) (hnow : t ≤ now) :
    LimiterInv max tw (waitIfNeeded rl now).1 (recorded ++ [(waitIfNeeded rl now).2])
      (waitIfNeeded rl now).2
    ∧ now ≤ (waitIfNeeded rl now).2 := by
  obtain ⟨hmaxeq, htweq, hsorted, hle_t, ⟨p, hsplit, hpold⟩, hlen, hwindow⟩ := inv
  have hreqmem : ∀ a ∈ rl.requests, a ∈ recorded := by
    intro a ha
    rw [hsplit]
    exact List.mem_append_right p ha
  have hreq_le : ∀ a ∈ rl.requests, a ≤ t := fun a ha => hle_t a (hreqmem a ha)
  obtain ⟨p2, hp2eq, hp2old⟩ := evictOld_suffix rl.timeWindow now rl.requests
  have hge0 := evictOld_mem_ge rl.timeWindow now rl.requests hsorted
  have hsorted2 : (evictOld rl.timeWindow now rl.requests).Sorted (· ≤ ·) :=
    List.Pairwise.sublist (evictOld_sublist _ _ _) hsorted
  have hevlen : (evictOld rl.timeWindow now rl.requests).length ≤ max :=
    le_trans (evictOld_length_le _ _ _) hlen
  have hevmem : ∀ a ∈ evictOld rl.timeWindow now rl.requests, a ∈ rl.requests :=
    fun a ha => (evictOld_sublist rl.timeWindow now rl.requests).subset ha
  cases hreqs : evictOld rl.timeWindow now rl.requests with
  | nil =>
    rw [hreqs] at hp2eq
    have hall : ∀ a ∈ recorded, a < now - tw := by
      intro a ha
      rw [hsplit] at ha
      rcases List.mem_append.mp ha with h | h
      · have := hpold a h
        linarith
      · rw [hp2eq, List.append_nil] at h
        have := hp2old a h
        linarith [htweq]
    have hw : waitIfNeeded rl now = ({ rl with requests := [now] }, now) := by
      simp only [waitIfNeeded, hreqs]
    rw [hw]
    refine ⟨?_, le_rfl⟩
    show LimiterInv max tw { rl with requests := [now] } (recorded ++ [now]) now
    exact limiter_record_inv max tw { rl with requests := [now] } recorded [] recorded now
      hmaxeq htweq (by simp) (by simp) hall (by simp) (by simp) (by simpa using hmax)
      (fun x hx => le_trans (hle_t x hx) hnow) hwindow
  | cons oldest rest =>
    rw [hreqs] at hp2eq hge0 hsorted2 hevlen hevmem
    have hEle_now : ∀ x ∈ oldest :: rest, x ≤ now :=
      fun x hx => le_trans (hreq_le x (hevmem x hx)) hnow
    have hqold2 : ∀ x ∈ p ++ p2, x < now - tw := by
      intro x hx
      rcases List.mem_append.mp hx with h | h
      · have := hpold x h
        linarith
      · have := hp2old x h
        linarith [htweq]
    have hsplit2 : recorded = (p ++ p2) ++ (oldest :: rest) := by
      rw [hsplit, hp2eq, List.append_assoc]
    by_cases hcount : rl.maxRequests ≤ (oldest :: rest).length
    · have holdge : now - tw ≤ oldest := by
        have := hge0 oldest (List.mem_cons_self oldest rest)
        linarith [htweq]
      have hpos : 0 < rl.timeWindow - (now - oldest) + 1 := by
        linarith [htweq]
      have hw : waitIfNeeded rl now =
          ({ rl with requests :=
              (evictOld rl.timeWindow (now + (rl.timeWindow - (now - oldest) + 1))
                (oldest :: rest)
              ++ [now + (rl.timeWindow - (now - oldest) + 1)]) },
            now + (rl.timeWindow - (now - oldest) + 1)) := by
        simp only [waitIfNeeded, hreqs, if_pos hcount, if_pos hpos]
      rw [hw]
      have hnow2 : now < now + (rl.timeWindow - (now - oldest) + 1) := by
        linarith
      obtain ⟨p3, hp3eq, hp3old⟩ :=
        evictOld_suffix rl.timeWindow (now + (rl.timeWindow - (now - oldest) + 1))
          (oldest :: rest)
      have holdlt : oldest
          < now + (rl.timeWindow - (now - oldest) + 1) - rl.timeWindow := by
        linarith
      have hEstep : evictOld rl.timeWindow (now + (rl.timeWindow - (now - oldest) + 1))
          (oldest :: rest)
          = evictOld rl.timeWindow (now + (rl.timeWindow - (now - oldest) + 1)) rest := by
        rw [evictOld, if_pos holdlt]
      have hE2len : (evictOld rl.timeWindow (now + (rl.timeWindow - (now - oldest) + 1))
          (oldest :: rest)).length + 1 ≤ max := by
        rw [hEstep]
        have h1 := evictOld_length_le rl.timeWindow
          (now + (rl.timeWindow - (now - oldest) + 1)) rest
        have h2 : (oldest :: rest).length ≤ max := hevlen
        simp only [List.length_cons] at h2
        omega
      refine ⟨?_, le_of_lt hnow2⟩
      show LimiterInv max tw
        { rl with requests :=
            (evictOld rl.timeWindow (now + (rl.timeWindow - (now - oldest) + 1))
              (oldest :: rest)
            ++ [now + (rl.timeWindow - (now - oldest) + 1)]) }
        (recorded ++ [now + (rl.timeWindow - (now - oldest) + 1)])
        (now + (rl.timeWindow - (now - oldest) + 1))
      apply limiter_record_inv max tw
        { rl with requests :=
            (evictOld rl.timeWindow (now + (rl.timeWindow - (now - oldest) + 1))
              (oldest :: rest)
            ++ [now + (rl.timeWindow - (now - oldest) + 1)]) }
        recorded
        (evictOld rl.timeWindow (now + (rl.timeWindow - (now - oldest) + 1))
          (oldest :: rest))
        ((p ++ p2) ++ p3)
        (now + (rl.timeWindow - (now - oldest) + 1)) hmaxeq htweq rfl
      · rw [hsplit2]
        conv_lhs => rw [hp3eq]
        simp [List.append_assoc]
      · intro x hx
        rcases List.mem_append.mp hx with h | h
        · have hx2 := hqold2 x h
          linarith [htweq, holdge]
        · have hx2 := hp3old x h
          linarith [htweq]
      · exact List.Pairwise.sublist (evictOld_sublist _ _ _) hsorted2
      · intro x hx
        have hx2 : x ∈ oldest :: rest :=
          (evictOld_sublist rl.timeWindow
            (now + (rl.timeWindow - (now - oldest) + 1)) (oldest :: rest)).subset hx
        exact le_trans (hEle_now x hx2) (le_of_lt hnow2)
      · exact hE2len
      · intro x hx
        exact le_trans (hle_t x hx) (le_trans hnow (le_of_lt hnow2))
      · exact hwindow
    · have hw : waitIfNeeded rl now =
          ({ rl with requests := ((oldest :: rest) ++ [now]) }, now) := by
        simp only [waitIfNeeded, hreqs, if_neg hcount]
      rw [hw]
      refine ⟨?_, le_rfl⟩
      show LimiterInv max tw { rl with requests := ((oldest :: rest) ++ [now]) }
        (recorded ++ [now]) now
      apply limiter_record_inv max tw
        { rl with requests := ((oldest :: rest) ++ [now]) }
        recorded (oldest :: rest) (p ++ p2) now
        hmaxeq htweq rfl hsplit2 hqold2 hsorted2 hEle_now
      · have hlt : (oldest :: rest).length < max := by
          rw [← hmaxeq]
          exact Nat.lt_of_not_le hcount
        omega
      · intro x hx
        exact le_trans (hle_t x hx) hnow
      · exact hwindow

theorem simulateCalls_inv (max : Nat) (tw : ℚ) (hmax : 0 < max) :
    ∀ (ds : List ℚ) (rl : RateLimiter) (recorded : List ℚ) (t : ℚ),
      (∀ d ∈ ds, 0 ≤ d) →
      LimiterInv max tw rl recorded t →
      ∃ tEnd : ℚ, LimiterInv max tw (simulateCalls rl t ds).1
        (recorded ++ (simulateCalls rl t ds).2) tEnd := by
  intro ds
  induction ds with
  | nil =>
    intro rl recorded t _ inv
    exact ⟨t, by simpa [simulateCalls] using inv⟩
  | cons d ds ih =>
    intro rl recorded t hds inv
    have hd : 0 ≤ d := hds d (List.mem_cons_self d ds)
    have hnow : t ≤ t + d := by linarith
    obtain ⟨inv2, -⟩ := limiter_step max tw rl recorded t hmax inv (t + d) hnow
    obtain ⟨tEnd, invEnd⟩ := ih (waitIfNeeded rl (t + d)).1
      (recorded ++ [(waitIfNeeded rl (t + d)).2]) (waitIfNeeded rl (t + d)).2
      (fun x hx => hds x (List.mem_cons_of_mem d hx)) inv2
    refine ⟨tEnd, ?_⟩
    have hshape : simulateCalls rl t (d :: ds)
        = ((simulateCalls (waitIfNeeded rl (t + d)).1 (waitIfNeeded rl (t + d)).2 ds).1,
           (waitIfNeeded rl (t + d)).2
             :: (simulateCalls (waitIfNeeded rl (t + d)).1 (waitIfNeeded rl (t + d)).2 ds).2) := by
      simp only [simulateCalls]
    rw [hshape]
    simpa [List.append_assoc] using invEnd

/-- Claim C2: for any sequence of sequential admissions on a fresh limiter,
no trailing window of `timeWindow` seconds ever holds more than
`maxRequests` recorded admission timestamps; and concretely, with
`max_requests = 2` and `time_window = 60`, calls at t = 0 and t = 1 return
immediately while a third call issued at t = 2 blocks and records its
admission at t = 61 (60 seconds plus the one-second safety margin —
"approximately t = 60"). -/
theorem rate_limiter_window_bound :
    (∀ (max : Nat) (tw t0 : ℚ) (ds : List ℚ), 0 < max → 0 < tw →
      (∀ d ∈ ds, 0 ≤ d) →
      ∀ T : ℚ, ((simulateCalls ⟨max, tw, []⟩ t0 ds).2.countP (inWindow tw T)) ≤ max)
    ∧ (simulateCalls ⟨2, 60, []⟩ 0 [0, 1, 1]).2 = [0, 1, 61] := by
  constructor
  · intro max tw t0 ds hmax htw hds T
    have base : LimiterInv max tw ⟨max, tw, []⟩ [] t0 :=
      ⟨rfl, rfl, by simp, by simp, ⟨[], by simp, by simp⟩, by simp, fun _ => by simp⟩
    obtain ⟨tEnd, inv⟩ := simulateCalls_inv max tw hmax ds ⟨max, tw, []⟩ [] t0 hds base
    have := inv.window T
    simpa using this
  · norm_num [simulateCalls, waitIfNeeded, evictOld]

/-- Claim C2 witness: the concrete run instantiating the general bound. -/
theorem rate_limiter_window_bound_witness :
    ((simulateCalls ⟨2, 60, []⟩ 0 [0, 1, 1]).2.countP (inWindow 60 61)) ≤ 2 :=
  rate_limiter_window_bound.1 2 60 0 [0, 1, 1] (by norm_num) (by norm_num)
    (by
      intro d hd
      simp only [List.mem_cons, List.not_mem_nil, or_false] at hd
      rcases hd with rfl | rfl | rfl <;> norm_num) 61
